import Mathlib

/-!
Verification of the identifier-derivation ("Identifier Binder") and blob-fetch
logic of the walrus/seal example scripts.

JavaScript strings are modelled as `List Char`; byte arrays (`Uint8Array`) as
`List Nat` whose elements are below 256 wherever the code guarantees it.
Fallible operations return `Except WorkflowError`.
-/

/-- The error taxonomy of the in-scope component: `MalformedHexInput` when a
textual hex input cannot be decoded, `InvalidEncryptedObjectFormat` when an
encrypted object's framing is not recognised. -/
inductive WorkflowError where
  | MalformedHexInput
  | InvalidEncryptedObjectFormat
deriving DecidableEq, Repr

/-- Value of a single hex digit character, `none` for a non-hex character;
the code-point ranges are 48-57 for `0`-`9`, 97-102 for `a`-`f`, and 65-70
for `A`-`F`. -/
def hexDigitVal? (c : Char) : Option Nat :=
  if 48 ≤ c.toNat ∧ c.toNat ≤ 57 then some (c.toNat - 48)
  else if 97 ≤ c.toNat ∧ c.toNat ≤ 102 then some (c.toNat - 97 + 10)
  else if 65 ≤ c.toNat ∧ c.toNat ≤ 70 then some (c.toNat - 65 + 10)
  else none

/-- Modelled from the spec: the hex decoder (`fromHex` of `@mysten/sui/utils`,
an SDK dependency whose source is not part of this repository) decodes a hex
string two characters per byte and "fails with `MalformedHexInput` when a
supplied hex string has odd length or non-hex characters". -/
def fromHexChars : List Char → Except WorkflowError (List Nat)
  | [] => .ok []
  | [_] => .error .MalformedHexInput
  | c1 :: c2 :: rest =>
    match hexDigitVal? c1, hexDigitVal? c2, fromHexChars rest with
    | some d1, some d2, .ok bs => .ok ((16 * d1 + d2) :: bs)
    | _, _, _ => .error .MalformedHexInput

/-- The character used by the transport hex encoding for a digit value. -/
def hexDigitChar (d : Nat) : Char :=
  if d < 10 then Char.ofNat ('0'.toNat + d) else Char.ofNat ('a'.toNat + (d - 10))

/-- The two lowercase hex characters of one byte. -/
def toHexByte (b : Nat) : List Char := [hexDigitChar (b / 16), hexDigitChar (b % 16)]

/-- Modelled from the spec: the hex encoder (`toHex` of `@mysten/sui/utils`,
an SDK dependency whose source is not part of this repository) encodes bytes
"as a hex string for transport", lowercase, two characters per byte. -/
def toHex (bs : List Nat) : List Char := (bs.map toHexByte).flatten

/-- `s.startsWith('0x')` on the prefix strings handled by the scripts. -/
def startsWith0x : List Char → Bool
  | c1 :: c2 :: _ => c1 == '0' && c2 == 'x'
  | _ => false

/-- `sender.startsWith('0x') ? sender.slice(2) : sender` — the textual `0x`
prefix is stripped before hex decoding. -/
def strip0x (s : List Char) : List Char :=
  if startsWith0x s then s.drop 2 else s

/-- `new Uint8Array(n)`: a fresh zero-filled byte array of length `n`. -/
def newUint8Array (n : Nat) : List Nat := List.replicate n 0

/-- `arr.set(src, offset)`: writes `src` into `arr` starting at `offset`,
leaving bytes outside the written window unchanged (the scripts only call it
with `offset + src.length ≤ arr.length`). -/
def typedArraySet (arr src : List Nat) (offset : Nat) : List Nat :=
  match arr, offset with
  | [], _ => []
  | a :: rest, Nat.succ k => a :: typedArraySet rest src k
  | a :: rest, 0 =>
    match src with
    | [] => a :: rest
    | s :: srest => s :: typedArraySet rest srest 0

/-- The byte-level identifier derivation inside `computeKeyId`
(src/walrus-seal-examples/scripts/upload_walrus.ts lines 75-78):
`const keyId = new Uint8Array(senderBytes.length + nonce.length);
keyId.set(senderBytes, 0); keyId.set(nonce, senderBytes.length);`. -/
def deriveBytes (p n : List Nat) : List Nat :=
  typedArraySet (typedArraySet (newUint8Array (p.length + n.length)) p 0) n p.length

namespace UploadWalrus

/-- `computeKeyId` of src/walrus-seal-examples/scripts/upload_walrus.ts:
strips an optional `0x` from the sender string, hex-decodes it, and writes
the sender bytes followed by the nonce into a fresh byte array. -/
def computeKeyId (sender : List Char) (nonce : List Nat) :
    Except WorkflowError (List Nat) :=
  match fromHexChars (strip0x sender) with
  | .error e => .error e
  | .ok senderBytes => .ok (deriveBytes senderBytes nonce)

end UploadWalrus

namespace DownloadWalrus

/-- `computeKeyId` of src/walrus-seal-examples/scripts/download_walrus.ts,
a textually identical copy of the upload script's function. -/
def computeKeyId (sender : List Char) (nonce : List Nat) :
    Except WorkflowError (List Nat) :=
  match fromHexChars (strip0x sender) with
  | .error e => .error e
  | .ok senderBytes => .ok (deriveBytes senderBytes nonce)

end DownloadWalrus

namespace DecryptSuiData

/-- `computeKeyId` of src/seal-examples/scripts/decrypt_sui_data.ts,
a textually identical copy of the upload script's function. -/
def computeKeyId (sender : List Char) (nonce : List Nat) :
    Except WorkflowError (List Nat) :=
  match fromHexChars (strip0x sender) with
  | .error e => .error e
  | .ok senderBytes => .ok (deriveBytes senderBytes nonce)

end DecryptSuiData

/-- `new Uint8Array([...a, ...b])`: a JS array literal built from two spreads
holds the elements of `a` followed by the elements of `b`. -/
def spreadConcat (a b : List Nat) : List Nat := a ++ b

namespace AllowlistUpload

/-- The inline policy-bound derivation of the allowlist upload script
(src/unnamed/part_000 lines 336-338):
`const policyObjectBytes = fromHex(allowlistId.startsWith('0x') ?
allowlistId.slice(2) : allowlistId); ...
new Uint8Array([...policyObjectBytes, ...nonce])`. -/
def encryptionIdBytes (allowlistId : List Char) (nonce : List Nat) :
    Except WorkflowError (List Nat) :=
  match fromHexChars (strip0x allowlistId) with
  | .error e => .error e
  | .ok policyObjectBytes => .ok (spreadConcat policyObjectBytes nonce)

end AllowlistUpload

/-- Well-formedness of a textual hex input, as the spec states it: even
length and only hex-digit characters. -/
def isWellFormedHex (s : List Char) : Bool :=
  s.length % 2 == 0 && s.all (fun c => (hexDigitVal? c).isSome)

/-- An encrypted object, opaque except for the identifier embedded in its
header at creation time. -/
structure EncryptedObject where
  id : List Nat
  ciphertext : List Nat
deriving DecidableEq, Repr

/-- Modelled from the spec: `SealClient.encrypt` of the `@mysten/seal` SDK is
not part of this repository's source. Per the spec it accepts
`(threshold, policy-id, identifier, plaintext)` and returns an encrypted
object that "internally it embeds the identifier used to create it"; the
ciphertext body is opaque and is left abstract here (the plaintext stands in
for it, as no claim depends on its contents). -/
def sealEncrypt (_threshold : Nat) (_packageId : List Char)
    (idHex : List Char) (data : List Nat) : Except WorkflowError EncryptedObject :=
  match fromHexChars idHex with
  | .error e => .error e
  | .ok idBytes => .ok { id := idBytes, ciphertext := data }

/-- Modelled from the spec: the encryption service's wire framing is not part
of this repository's source; the spec's only guarantee is that "the identifier
can be recovered from the encrypted object's header", so the framing is a
header carrying the length-prefixed identifier followed by the opaque body. -/
def serializeEncryptedObject (o : EncryptedObject) : List Nat :=
  o.id.length :: (o.id ++ o.ciphertext)

/-- Modelled from the spec: `EncryptedObject.parse` of the `@mysten/seal` SDK
is not part of this repository's source; it recovers the embedded identifier
from a well-formed encrypted object and "fails with
`InvalidEncryptedObjectFormat` otherwise". -/
def parseEncryptedObject (bytes : List Nat) : Except WorkflowError EncryptedObject :=
  match bytes with
  | [] => .error .InvalidEncryptedObjectFormat
  | n :: rest =>
    if n ≤ rest.length then .ok { id := rest.take n, ciphertext := rest.drop n }
    else .error .InvalidEncryptedObjectFormat

/-- The identifier extraction of `downloadAndDecrypt`
(src/walrus-seal-examples/scripts/download_walrus.ts lines 156-164): parse the
encrypted object, render its embedded id as a hex string, strip an optional
`0x`, and hex-decode it back to bytes. -/
def extractIdentifierFromEncryptedObject (bytes : List Nat) :
    Except WorkflowError (List Nat) :=
  match parseEncryptedObject bytes with
  | .error e => .error e
  | .ok obj => fromHexChars (strip0x (toHex obj.id))

/-- One aggregator's reaction to a blob fetch: an HTTP response with a status
and body, or a thrown fetch error (network failure or the 10s abort timeout),
which the script catches. -/
inductive AggregatorResponse where
  | response (status : Nat) (body : List Nat)
  | failure
deriving DecidableEq, Repr

/-- `response.ok`: HTTP status in the 200-299 range. -/
def responseOk (status : Nat) : Bool := 200 ≤ status && status < 300

/-- Whether an attempt yielded an OK response. -/
def isSuccessResponse : AggregatorResponse → Bool
  | .response status _ => responseOk status
  | .failure => false

/-- `downloadBlobFromWalrus` of
src/walrus-seal-examples/scripts/down_encrypted_key.ts lines 57-85: try each
aggregator in turn; return the body of the first OK response; on a non-OK
status or a caught fetch error, warn and move on; return `null` (here `none`)
when every aggregator has failed. -/
def downloadBlobFromWalrus : List AggregatorResponse → Option (List Nat)
  | [] => none
  | .response status body :: rest =>
    if responseOk status then some body else downloadBlobFromWalrus rest
  | .failure :: rest => downloadBlobFromWalrus rest

/-- Outcome of the download workflow's fetch step: the encrypted bytes are
saved, or the content is reported unavailable with an operator message. -/
inductive DownloadOutcome where
  | savedEncrypted (bytes : List Nat)
  | contentUnavailable (message : String)
deriving DecidableEq, Repr

/-- The operator message printed when no aggregator returned the blob. -/
def unavailableMessage : String :=
  "Cannot retrieve file from Walrus aggregators. File uploaded more than 1 epoch ago may have been deleted."

/-- The fetch step of `main` in
src/walrus-seal-examples/scripts/down_encrypted_key.ts lines 124-131: a `null`
download result is reported as expected content expiry (storage-duration
window passed) and the run stops; otherwise the bytes are kept. -/
def mainDownloadStep (responses : List AggregatorResponse) : DownloadOutcome :=
  match downloadBlobFromWalrus responses with
  | none => .contentUnavailable unavailableMessage
  | some bytes => .savedEncrypted bytes

/-! ### Helper lemmas -/

theorem typedArraySet_zero (src : List Nat) : ∀ (arr : List Nat),
    src.length ≤ arr.length →
    typedArraySet arr src 0 = src ++ arr.drop src.length := by
  induction src with
  | nil => intro arr _; cases arr <;> simp [typedArraySet]
  | cons s srest ih =>
    intro arr h
    cases arr with
    | nil => simp at h
    | cons a rest =>
      simp only [List.length_cons, Nat.add_le_add_iff_right] at h
      simp [typedArraySet, ih rest h]

theorem typedArraySet_append_offset (p : List Nat) : ∀ (rest src : List Nat),
    typedArraySet (p ++ rest) src p.length = p ++ typedArraySet rest src 0 := by
  induction p with
  | nil => intro rest src; rfl
  | cons a p ih => intro rest src; simp [typedArraySet, ih]

theorem deriveBytes_eq_append (p n : List Nat) : deriveBytes p n = p ++ n := by
  unfold deriveBytes newUint8Array
  rw [typedArraySet_zero p _ (by simp), List.drop_replicate]
  have hlen : p.length + n.length - p.length = n.length := by omega
  rw [hlen, typedArraySet_append_offset, typedArraySet_zero n _ (by simp),
    List.drop_replicate]
  simp

theorem hexDigitVal?_lt_16 (c : Char) (d : Nat) (h : hexDigitVal? c = some d) :
    d < 16 := by
  unfold hexDigitVal? at h
  split_ifs at h <;> simp_all <;> omega

theorem hexDigitVal?_hexDigitChar : ∀ d, d < 16 →
    hexDigitVal? (hexDigitChar d) = some d := by decide

theorem hexDigitChar_ne_x : ∀ d, d < 16 → ¬ hexDigitChar d = 'x' := by decide

theorem strip0x_toHex (bs : List Nat) : strip0x (toHex bs) = toHex bs := by
  cases bs with
  | nil => rfl
  | cons b bs =>
    have hx := hexDigitChar_ne_x (b % 16) (Nat.mod_lt b (by omega))
    simp [strip0x, startsWith0x, toHex, toHexByte, hx]

theorem fromHexChars_toHex (bs : List Nat) (h : ∀ b ∈ bs, b < 256) :
    fromHexChars (toHex bs) = .ok bs := by
  induction bs with
  | nil => rfl
  | cons b bs ih =>
    have hb : b < 256 := h b (List.mem_cons_self b bs)
    have hd1 : hexDigitVal? (hexDigitChar (b / 16)) = some (b / 16) :=
      hexDigitVal?_hexDigitChar _ (by omega)
    have hd2 : hexDigitVal? (hexDigitChar (b % 16)) = some (b % 16) :=
      hexDigitVal?_hexDigitChar _ (by omega)
    have ihh := ih (fun x hx => h x (List.mem_cons_of_mem _ hx))
    have hb' : 16 * (b / 16) + b % 16 = b := by omega
    simp only [toHex, List.map_cons, List.flatten_cons, toHexByte, List.cons_append,
      List.nil_append] at ihh ⊢
    simp [fromHexChars, hd1, hd2, ihh, hb']

theorem fromHexChars_isOk_eq : (s : List Char) →
    (fromHexChars s).isOk = isWellFormedHex s
  | [] => by simp [fromHexChars, isWellFormedHex, Except.isOk, Except.toBool]
  | [c] => by simp [fromHexChars, isWellFormedHex, Except.isOk, Except.toBool]
  | c1 :: c2 :: rest => by
    have ih := fromHexChars_isOk_eq rest
    have hmod : (rest.length + 1 + 1) % 2 = rest.length % 2 := by omega
    simp only [fromHexChars, isWellFormedHex, List.length_cons, List.all_cons,
      hmod] at ih ⊢
    cases h1 : hexDigitVal? c1 <;> cases h2 : hexDigitVal? c2 <;>
      cases h3 : fromHexChars rest <;>
      simp_all [Except.isOk, Except.toBool]

theorem fromHexChars_error_eq (s : List Char) (e : WorkflowError)
    (h : fromHexChars s = .error e) : e = .MalformedHexInput := by
  match s with
  | [] => simp [fromHexChars] at h
  | [c] =>
    simp only [fromHexChars, Except.error.injEq] at h
    exact h.symm
  | c1 :: c2 :: rest =>
    revert h
    simp only [fromHexChars]
    cases h1 : hexDigitVal? c1 <;> cases h2 : hexDigitVal? c2 <;>
      cases h3 : fromHexChars rest <;> intro h <;> simp_all

theorem fromHexChars_lt_256 : (s : List Char) → (bs : List Nat) →
    fromHexChars s = .ok bs → ∀ b ∈ bs, b < 256
  | [], bs, h => by
    simp only [fromHexChars, Except.ok.injEq] at h
    subst h; simp
  | [c], bs, h => by simp [fromHexChars] at h
  | c1 :: c2 :: rest, bs, h => by
    have ih := fromHexChars_lt_256 rest
    revert h
    simp only [fromHexChars]
    cases h1 : hexDigitVal? c1 <;> cases h2 : hexDigitVal? c2 <;>
      cases h3 : fromHexChars rest <;> intro h <;> simp at h
    subst h
    intro b hb
    rcases List.mem_cons.mp hb with rfl | hb
    · have hc1 := hexDigitVal?_lt_16 _ _ h1
      have hc2 := hexDigitVal?_lt_16 _ _ h2
      omega
    · exact ih _ h3 b hb


/-- Decidable equality for `Except`, used to evaluate the embedded
operations on concrete inputs. -/
instance {e a : Type _} [DecidableEq e] [DecidableEq a] :
    DecidableEq (Except e a) := fun x y =>
  match x, y with
  | .ok u, .ok v =>
    if h : u = v then .isTrue (by rw [h]) else .isFalse (by simp [h])
  | .error u, .error v =>
    if h : u = v then .isTrue (by rw [h]) else .isFalse (by simp [h])
  | .ok _, .error _ => .isFalse (by simp)
  | .error _, .ok _ => .isFalse (by simp)

/-! ### Claim theorems -/

/-- C1: for all byte sequences `p` (prefix) and `n` (nonce) of any
non-negative length, the byte-level derivation returns a byte sequence of
length `len(p)+len(n)` equal to `p` followed immediately by `n`, with no
reordering, delimiter, length prefix, or padding. -/
theorem C1_derive_is_concat (p n : List Nat) :
    deriveBytes p n = p ++ n ∧ (deriveBytes p n).length = p.length + n.length := by
  refine ⟨deriveBytes_eq_append p n, ?_⟩
  rw [deriveBytes_eq_append]
  simp

/-- C2: for any two distinct prefixes of the same fixed length and a single
nonce, the derived identifiers differ; in particular a policy-object address
prefix and a different requester address prefix of 32 bytes each give
different identifiers under the same nonce. -/
theorem C2_distinct_prefixes_distinct_ids (p1 p2 n : List Nat)
    (hlen : p1.length = p2.length) (hne : p1 ≠ p2) :
    deriveBytes p1 n ≠ deriveBytes p2 n := by
  rw [deriveBytes_eq_append, deriveBytes_eq_append]
  intro h
  exact hne (List.append_inj_left h hlen)

theorem C2_distinct_prefixes_distinct_ids_witness :
    (List.replicate 32 (1 : Nat)).length = (List.replicate 32 (2 : Nat)).length ∧
    List.replicate 32 (1 : Nat) ≠ List.replicate 32 2 ∧
    deriveBytes (List.replicate 32 1) [1, 2, 3, 4, 5] ≠
      deriveBytes (List.replicate 32 2) [1, 2, 3, 4, 5] :=
  ⟨by decide, by decide,
    C2_distinct_prefixes_distinct_ids (List.replicate 32 1) (List.replicate 32 2)
      [1, 2, 3, 4, 5] (by decide) (by decide)⟩

/-- C3: the derivation is a pure function whose only error condition is
malformed hex input: the prefix string `0xZZ` yields `MalformedHexInput` for
every nonce (before any concatenation, as the error is nonce-independent);
every well-formed hex input succeeds; and every failure is
`MalformedHexInput` on a malformed hex input. -/
theorem C3_single_error_condition :
    (∀ n : List Nat,
      UploadWalrus.computeKeyId ['0', 'x', 'Z', 'Z'] n = .error .MalformedHexInput) ∧
    (∀ (s : List Char) (n : List Nat), isWellFormedHex (strip0x s) = true →
      (UploadWalrus.computeKeyId s n).isOk = true) ∧
    (∀ (s : List Char) (n : List Nat) (e : WorkflowError),
      UploadWalrus.computeKeyId s n = .error e →
      e = .MalformedHexInput ∧ isWellFormedHex (strip0x s) = false) := by
  refine ⟨fun n => rfl, ?_, ?_⟩
  · intro s n h
    have hok := fromHexChars_isOk_eq (strip0x s)
    rw [h] at hok
    unfold UploadWalrus.computeKeyId
    cases hfc : fromHexChars (strip0x s) with
    | error e => rw [hfc] at hok; simp [Except.isOk, Except.toBool] at hok
    | ok bs => simp [Except.isOk, Except.toBool]
  · intro s n e h
    have hok := fromHexChars_isOk_eq (strip0x s)
    unfold UploadWalrus.computeKeyId at h
    cases hfc : fromHexChars (strip0x s) with
    | error e0 =>
      rw [hfc] at h hok
      simp only [Except.error.injEq] at h
      subst h
      exact ⟨fromHexChars_error_eq _ _ hfc, by
        simpa [Except.isOk, Except.toBool] using hok.symm⟩
    | ok bs => rw [hfc] at h; simp at h

theorem C3_single_error_condition_witness :
    UploadWalrus.computeKeyId ['0', 'x', 'Z', 'Z'] [7] = .error .MalformedHexInput ∧
    (UploadWalrus.computeKeyId ['a', 'b'] [7]).isOk = true ∧
    (WorkflowError.MalformedHexInput = .MalformedHexInput ∧
      isWellFormedHex (strip0x ['0', 'x', 'Z', 'Z']) = false) :=
  ⟨C3_single_error_condition.1 [7],
    C3_single_error_condition.2.1 ['a', 'b'] [7] (by decide),
    C3_single_error_condition.2.2 ['0', 'x', 'Z', 'Z'] [7] .MalformedHexInput (by decide)⟩

/-- C4: round-trip — for every encrypted object produced by
`encrypt(threshold, policyId, identifierHex, plaintext)`, extracting the
identifier from the serialized object bytes returns exactly the decoded bytes
of `identifierHex`. -/
theorem C4_identifier_roundtrip (t : Nat) (pid idHex : List Char)
    (data : List Nat) (obj : EncryptedObject)
    (h : sealEncrypt t pid idHex data = .ok obj) :
    extractIdentifierFromEncryptedObject (serializeEncryptedObject obj) = .ok obj.id ∧
    fromHexChars idHex = .ok obj.id := by
  unfold sealEncrypt at h
  cases hfc : fromHexChars idHex with
  | error e => rw [hfc] at h; simp at h
  | ok ids =>
    rw [hfc] at h
    simp only [Except.ok.injEq] at h
    subst h
    refine ⟨?_, rfl⟩
    have hparse : parseEncryptedObject
        (serializeEncryptedObject ⟨ids, data⟩) = .ok ⟨ids, data⟩ := by
      simp [serializeEncryptedObject, parseEncryptedObject, List.take_left,
        List.drop_left]
    simp only [extractIdentifierFromEncryptedObject, hparse]
    rw [strip0x_toHex]
    exact fromHexChars_toHex ids (fromHexChars_lt_256 idHex ids hfc)

theorem C4_identifier_roundtrip_witness :
    extractIdentifierFromEncryptedObject
      (serializeEncryptedObject ⟨[171], [5]⟩) = .ok [171] ∧
    fromHexChars ['a', 'b'] = .ok [171] :=
  C4_identifier_roundtrip 2 [] ['a', 'b'] [5] ⟨[171], [5]⟩ (by decide)

/-- C5: a `0x`-style textual prefix on the supplied prefix string is stripped
before hex decoding: for every hex-digit string `s` and nonce `n`, the
derivation applied to `0x` followed by `s` equals the derivation applied to
`s`. -/
theorem C5_leading_0x_ignored (s : List Char) (n : List Nat)
    (h : ∀ c ∈ s, (hexDigitVal? c).isSome = true) :
    UploadWalrus.computeKeyId ('0' :: 'x' :: s) n = UploadWalrus.computeKeyId s n := by
  have h1 : strip0x ('0' :: 'x' :: s) = s := by simp [strip0x, startsWith0x]
  have h2 : strip0x s = s := by
    unfold strip0x
    cases s with
    | nil => rfl
    | cons a s1 =>
      cases s1 with
      | nil => rfl
      | cons b s2 =>
        have hb := h b (by simp)
        have hbx : ¬ b = 'x' := by
          rintro rfl
          simp [hexDigitVal?] at hb
        simp [startsWith0x, hbx]
  unfold UploadWalrus.computeKeyId
  rw [h1, h2]

theorem C5_leading_0x_ignored_witness :
    UploadWalrus.computeKeyId ['0', 'x', 'a', 'b'] [9] =
      UploadWalrus.computeKeyId ['a', 'b'] [9] :=
  C5_leading_0x_ignored ['a', 'b'] [9] (by decide)

/-- C6: concrete vector — for the prefix string of 64 `a` characters (the
32-byte address of `0xAA` bytes) and the nonce `[1, 2, 3, 4, 5]`, the
derivation returns the 32 `0xAA` bytes followed by `01 02 03 04 05`, 37 bytes
in total, whose hex transport encoding is 64 `a` characters followed by
`0102030405`. -/
theorem C6_concrete_vector :
    UploadWalrus.computeKeyId (List.replicate 64 'a') [1, 2, 3, 4, 5] =
      .ok (List.replicate 32 170 ++ [1, 2, 3, 4, 5]) ∧
    (List.replicate 32 (170 : Nat) ++ [1, 2, 3, 4, 5]).length = 37 ∧
    toHex (List.replicate 32 170 ++ [1, 2, 3, 4, 5]) =
      List.replicate 64 'a' ++ ['0', '1', '0', '2', '0', '3', '0', '4', '0', '5'] :=
  ⟨by decide, by decide, by decide⟩

/-- C7: the three copies of `computeKeyId` (walrus upload, walrus download,
sui decrypt) and the inline policy-bound derivation of the allowlist upload
script compute the same function of the prefix string and nonce bytes. -/
theorem C7_derivations_agree (s : List Char) (n : List Nat) :
    DownloadWalrus.computeKeyId s n = UploadWalrus.computeKeyId s n ∧
    DecryptSuiData.computeKeyId s n = UploadWalrus.computeKeyId s n ∧
    AllowlistUpload.encryptionIdBytes s n = UploadWalrus.computeKeyId s n := by
  refine ⟨rfl, rfl, ?_⟩
  unfold AllowlistUpload.encryptionIdBytes UploadWalrus.computeKeyId
  cases hfc : fromHexChars (strip0x s) <;>
    simp [spreadConcat, deriveBytes_eq_append]

/-- C8 as stated is false: two different nonces of different lengths under the
same prefix give identifiers of different total lengths. -/
theorem C8_counterexample :
    ([1] : List Nat) ≠ [2, 3] ∧
    (deriveBytes [170] [1]).length ≠ (deriveBytes [170] [2, 3]).length := by
  decide

/-- C8 (amended): for a fixed prefix and two different nonces the derived
identifiers differ, and when the two nonces have the same length the two
identifiers have the same total length. -/
theorem C8_distinct_nonces_distinct_ids (p n1 n2 : List Nat) (hne : n1 ≠ n2) :
    deriveBytes p n1 ≠ deriveBytes p n2 ∧
    (n1.length = n2.length →
      (deriveBytes p n1).length = (deriveBytes p n2).length) := by
  constructor
  · rw [deriveBytes_eq_append, deriveBytes_eq_append]
    intro h
    exact hne (List.append_cancel_left h)
  · intro hlen
    rw [deriveBytes_eq_append, deriveBytes_eq_append]
    simp [hlen]

theorem C8_distinct_nonces_distinct_ids_witness :
    deriveBytes [170] [1] ≠ deriveBytes [170] [2] ∧
    (deriveBytes [170] [1]).length = (deriveBytes [170] [2]).length :=
  ⟨(C8_distinct_nonces_distinct_ids [170] [1] [2] (by decide)).1,
    (C8_distinct_nonces_distinct_ids [170] [1] [2] (by decide)).2 (by decide)⟩

/-- C9: the derivation is deterministic — two runs on identical inputs give
identical results, with no dependence on hidden state (the embedding carries
no state at all). -/
theorem C9_deterministic (s : List Char) (n : List Nat)
    (r1 r2 : Except WorkflowError (List Nat))
    (h1 : UploadWalrus.computeKeyId s n = r1)
    (h2 : UploadWalrus.computeKeyId s n = r2) : r1 = r2 :=
  h1.symm.trans h2

theorem C9_deterministic_witness :
    (Except.ok [171, 1] : Except WorkflowError (List Nat)) = Except.ok [171, 1] :=
  C9_deterministic ['a', 'b'] [1] (.ok [171, 1]) (.ok [171, 1])
    (by decide) (by decide)

/-- C10: when every aggregator yields a non-OK status, a timeout, or an
error, the blob fetch returns `null` (here `none`) rather than throwing, and
the calling workflow reports the content as expectedly unavailable after the
storage-duration window rather than as corruption. -/
theorem C10_fetch_failure_is_none (rs : List AggregatorResponse)
    (h : ∀ r ∈ rs, isSuccessResponse r = false) :
    downloadBlobFromWalrus rs = none ∧
    mainDownloadStep rs = .contentUnavailable unavailableMessage := by
  have hnone : downloadBlobFromWalrus rs = none := by
    induction rs with
    | nil => rfl
    | cons r rest ih =>
      have hr := h r (List.mem_cons_self r rest)
      have ihh := ih (fun x hx => h x (List.mem_cons_of_mem _ hx))
      cases r with
      | failure => simpa [downloadBlobFromWalrus] using ihh
      | response status body =>
        simp only [isSuccessResponse] at hr
        simp [downloadBlobFromWalrus, hr, ihh]
  exact ⟨hnone, by simp [mainDownloadStep, hnone]⟩

theorem C10_fetch_failure_is_none_witness :
    downloadBlobFromWalrus [.failure, .response 404 [], .response 500 [7]] = none ∧
    mainDownloadStep [.failure, .response 404 [], .response 500 [7]] =
      .contentUnavailable unavailableMessage :=
  C10_fetch_failure_is_none [.failure, .response 404 [], .response 500 [7]]
    (by decide)
